import Mathlib

/-!
Verification of the Korean election results crawler against its specification.

The crawler (election_crawler.py) and the HTML table parser (html_to_csv_parser.py)
are shallowly embedded below: byte strings are `List Nat` (each entry one byte,
0-255), decoded text is `String` / `List Char`, the filesystem is an association
list from paths to byte contents, and Python exceptions are modelled as values of
an explicit error type carried in `Except`.  Functions whose names match the
Python source (`cleanText` for `_clean_text`, `detectContentType` for
`_detect_content_type`, ...) are direct translations of the source; functions
prefixed `spec` are written from the specification's words and are compared with
the source translations in refinement theorems.
-/

set_option autoImplicit false

set_option maxRecDepth 4000

namespace Crawler

/-! ## Python whitespace and `_clean_text` (html_to_csv_parser.py lines 155-166) -/

/-- Code points Python treats as whitespace (`str.strip`, regex `\s` on `str`). -/
def pyWhitespaceCodes : List Nat :=
  [9, 10, 11, 12, 13, 28, 29, 30, 31, 32, 133, 160, 0x1680,
   0x2000, 0x2001, 0x2002, 0x2003, 0x2004, 0x2005, 0x2006, 0x2007,
   0x2008, 0x2009, 0x200A, 0x2028, 0x2029, 0x202F, 0x205F, 0x3000]

def isPySpace (c : Char) : Bool := pyWhitespaceCodes.contains c.toNat

/-- Python `str.strip()`: drop whitespace from both ends. -/
def pyStrip (l : List Char) : List Char :=
  ((l.dropWhile isPySpace).reverse.dropWhile isPySpace).reverse

/-- `re.sub(r"\s+", " ", _)`: replace each maximal whitespace run by one space.
The flag records whether the previous character was part of a whitespace run. -/
def collapseWSAux : Bool → List Char → List Char
  | _, [] => []
  | prevSpace, c :: cs =>
    if isPySpace c then
      if prevSpace then collapseWSAux true cs
      else ' ' :: collapseWSAux true cs
    else c :: collapseWSAux false cs

def replaceNL (c : Char) : Char := if c = '\n' then ' ' else c

def replaceCR (c : Char) : Char := if c = '\r' then ' ' else c

/-- `_clean_text`: empty input short-circuits to `""`; otherwise strip, collapse
whitespace runs to a single space, then replace `\n` and `\r` by spaces. -/
def cleanText (s : String) : String :=
  if s = "" then ""
  else String.mk (((collapseWSAux false (pyStrip s.data)).map replaceNL).map replaceCR)

/-- No two consecutive whitespace characters anywhere in the list. -/
def noConsecWS : List Char → Bool
  | [] => true
  | a :: t =>
    (match t.head? with
     | none => true
     | some b => !(isPySpace a && isPySpace b)) && noConsecWS t

/-- The first character, when any, is not whitespace. -/
def headNotWS (l : List Char) : Bool :=
  match l.head? with
  | none => true
  | some c => !isPySpace c

/-- The last character, when any, is not whitespace. -/
def lastNotWS (l : List Char) : Bool :=
  match l.getLast? with
  | none => true
  | some c => !isPySpace c

/-- Neither the first nor the last character is whitespace. -/
def noEdgeWS (l : List Char) : Bool := headNotWS l && lastNotWS l

/-- Every whitespace character is exactly the plain space. -/
def wsCanonical : List Char → Bool
  | [] => true
  | c :: cs => (!isPySpace c || c == ' ') && wsCanonical cs

/-! ## UTF-8 decoding

Byte strings are `List Nat`.  `utf8DecodeAux repl` decodes to a list of code
points; every ill-formed subsequence contributes `repl` (so `repl = []` models
Python's `errors="ignore"` and `repl = [0xFFFD]` models `errors="replace"`).
The decoder rejects overlong encodings, surrogates and code points above
U+10FFFF, as CPython's decoder does. -/

def isCont (b : Nat) : Bool := decide (0x80 ≤ b ∧ b ≤ 0xBF)

/-- Valid second byte of a 3-byte sequence with lead `b`. -/
def utf8Cont2Ok (b b1 : Nat) : Bool :=
  if b = 0xE0 then decide (0xA0 ≤ b1 ∧ b1 ≤ 0xBF)
  else if b = 0xED then decide (0x80 ≤ b1 ∧ b1 ≤ 0x9F)
  else isCont b1

/-- Valid second byte of a 4-byte sequence with lead `b`. -/
def utf8Cont4Ok (b b1 : Nat) : Bool :=
  if b = 0xF0 then decide (0x90 ≤ b1 ∧ b1 ≤ 0xBF)
  else if b = 0xF4 then decide (0x80 ≤ b1 ∧ b1 ≤ 0x8F)
  else isCont b1

def utf8DecodeAux (repl : List Nat) : List Nat → List Nat
  | [] => []
  | b :: bs =>
    if b < 0x80 then b :: utf8DecodeAux repl bs
    else if b < 0xC2 then repl ++ utf8DecodeAux repl bs
    else if b ≤ 0xDF then
      match bs with
      | [] => repl
      | b1 :: bs1 =>
        if isCont b1 then ((b - 0xC0) * 0x40 + (b1 - 0x80)) :: utf8DecodeAux repl bs1
        else repl ++ utf8DecodeAux repl (b1 :: bs1)
    else if b ≤ 0xEF then
      match bs with
      | [] => repl
      | b1 :: bs1 =>
        if utf8Cont2Ok b b1 then
          match bs1 with
          | [] => repl
          | b2 :: bs2 =>
            if isCont b2 then
              ((b - 0xE0) * 0x1000 + (b1 - 0x80) * 0x40 + (b2 - 0x80)) :: utf8DecodeAux repl bs2
            else repl ++ utf8DecodeAux repl (b2 :: bs2)
        else repl ++ utf8DecodeAux repl (b1 :: bs1)
    else if b ≤ 0xF4 then
      match bs with
      | [] => repl
      | b1 :: bs1 =>
        if utf8Cont4Ok b b1 then
          match bs1 with
          | [] => repl
          | b2 :: bs2 =>
            if isCont b2 then
              match bs2 with
              | [] => repl
              | b3 :: bs3 =>
                if isCont b3 then
                  ((b - 0xF0) * 0x40000 + (b1 - 0x80) * 0x1000 + (b2 - 0x80) * 0x40 + (b3 - 0x80))
                    :: utf8DecodeAux repl bs3
                else repl ++ utf8DecodeAux repl (b3 :: bs3)
            else repl ++ utf8DecodeAux repl (b2 :: bs2)
        else repl ++ utf8DecodeAux repl (b1 :: bs1)
    else repl ++ utf8DecodeAux repl bs

/-- `bytes.decode("utf-8", errors="ignore")`, as code points. -/
def utf8DecodeIgnore (bs : List Nat) : List Nat := utf8DecodeAux [] bs

/-- `bytes.decode("utf-8", errors="replace")`, as code points. -/
def utf8DecodeReplace (bs : List Nat) : List Nat := utf8DecodeAux [0xFFFD] bs

/-- Strict decodability: `bytes.decode("utf-8")` succeeds (no `UnicodeDecodeError`). -/
def utf8Valid : List Nat → Bool
  | [] => true
  | b :: bs =>
    if b < 0x80 then utf8Valid bs
    else if b < 0xC2 then false
    else if b ≤ 0xDF then
      match bs with
      | [] => false
      | b1 :: bs1 => isCont b1 && utf8Valid bs1
    else if b ≤ 0xEF then
      match bs with
      | [] => false
      | [_] => false
      | b1 :: b2 :: bs2 => utf8Cont2Ok b b1 && (isCont b2 && utf8Valid bs2)
    else if b ≤ 0xF4 then
      match bs with
      | [] => false
      | [_] => false
      | [_, _] => false
      | b1 :: b2 :: b3 :: bs3 => utf8Cont4Ok b b1 && (isCont b2 && (isCont b3 && utf8Valid bs3))
    else false

/-! ## Content classification (`_detect_content_type`, election_crawler.py lines 367-409) -/

/-- ASCII lowercasing of a code point (model of `str.lower()`; the markers and
media types compared against are all ASCII). -/
def asciiLowerN (cp : Nat) : Nat := if 65 ≤ cp ∧ cp ≤ 90 then cp + 32 else cp

def asciiLowerStr (s : String) : String :=
  String.mk (s.data.map (fun c => if 65 ≤ c.toNat ∧ c.toNat ≤ 90 then Char.ofNat (c.toNat + 32) else c))

/-- The code points of an ASCII string. -/
def strCodes (s : String) : List Nat := s.data.map Char.toNat

/-- `listInfix needle hay`: `needle` occurs contiguously inside `hay`. -/
def listInfix {α : Type} [BEq α] (needle : List α) : List α → Bool
  | [] => needle.isEmpty
  | c :: rest => needle.isPrefixOf (c :: rest) || listInfix needle rest

/-- Python `needle in hay` on strings. -/
def containsSub (hay needle : String) : Bool := listInfix needle.data hay.data

/-- An HTTP response as the crawler observes it: the two headers it reads and
the body bytes. -/
structure HttpResponse where
  contentType : Option String
  contentDisposition : Option String
  content : List Nat

def htmlIndicators : List String :=
  ["<!doctype html", "<html", "<head>", "<body>", "<table"]

def ole2Signature : List Nat := [0xD0, 0xCF, 0x11, 0xE0, 0xA1, 0xB1, 0x1A, 0xE1]

def zipSignature : List Nat := [0x50, 0x4B, 0x03, 0x04]

/-- `_detect_content_type`.  Note that the body decode uses `errors="ignore"`,
which never raises, so the source's `except (UnicodeDecodeError, AttributeError)`
branch (returning `"excel"`) is unreachable and has no counterpart here. -/
def detectContentType (r : HttpResponse) : String :=
  let ct := asciiLowerStr (r.contentType.getD "")
  if containsSub ct "text/html" || containsSub ct "application/html" then "html"
  else if containsSub ct "application/vnd.ms-excel" || containsSub ct "application/excel" then "excel"
  else
    let contentStart := (utf8DecodeIgnore (r.content.take 4096)).map asciiLowerN
    if htmlIndicators.any (fun ind => listInfix (strCodes ind) contentStart) then "html"
    else if ole2Signature.isPrefixOf (r.content.take 8) || zipSignature.isPrefixOf (r.content.take 8)
      then "excel"
    else "unknown"

/-- The specification's classification vocabulary. -/
inductive ContentKind where
  | html
  | spreadsheet
  | unknown
  deriving DecidableEq

/-- Map the source's string tags onto the specification's vocabulary
(the source says `"excel"` where the specification says `spreadsheet`). -/
def kindOfString (s : String) : ContentKind :=
  if s = "html" then .html else if s = "excel" then .spreadsheet else .unknown

/-- Modelled from the claim's words: the six-rule classification chain, first
match wins, where rule 5 reads "if the byte prefix cannot be decoded as text at
all, spreadsheet" (strict UTF-8 decodability). -/
def specClassify (r : HttpResponse) : ContentKind :=
  let ct := asciiLowerStr (r.contentType.getD "")
  if ["text/html", "application/html"].any (fun m => containsSub ct m) then .html
  else if ["application/vnd.ms-excel", "application/excel"].any (fun m => containsSub ct m) then
    .spreadsheet
  else if htmlIndicators.any
      (fun m => listInfix (strCodes m) ((utf8DecodeIgnore (r.content.take 4096)).map asciiLowerN)) then
    .html
  else if ole2Signature.isPrefixOf (r.content.take 8) || zipSignature.isPrefixOf (r.content.take 8) then
    .spreadsheet
  else if !utf8Valid (r.content.take 4096) then .spreadsheet
  else .unknown

/-- The chain as the code realises it: rules 1-4 and then `unknown`; the
undecodable-prefix rule never fires because decoding ignores errors. -/
def specClassifyAmended (r : HttpResponse) : ContentKind :=
  let ct := asciiLowerStr (r.contentType.getD "")
  if ["text/html", "application/html"].any (fun m => containsSub ct m) then .html
  else if ["application/vnd.ms-excel", "application/excel"].any (fun m => containsSub ct m) then
    .spreadsheet
  else if htmlIndicators.any
      (fun m => listInfix (strCodes m) ((utf8DecodeIgnore (r.content.take 4096)).map asciiLowerN)) then
    .html
  else if ole2Signature.isPrefixOf (r.content.take 8) || zipSignature.isPrefixOf (r.content.take 8) then
    .spreadsheet
  else .unknown

theorem detect_eq_specAmended (r : HttpResponse) :
    kindOfString (detectContentType r) = specClassifyAmended r := by
  unfold detectContentType specClassifyAmended kindOfString
  simp only [List.any_cons, List.any_nil, Bool.or_false]
  split_ifs <;> simp_all

/-! ## Header reconstruction (`_extract_headers`, html_to_csv_parser.py lines 67-116) -/

/-- A header cell as the parser reads it from the DOM: raw text plus the
`colspan` and `rowspan` attributes (defaulted to 1 when absent). -/
structure HeaderCell where
  text : String
  colspan : Nat
  rowspan : Nat
  deriving DecidableEq

/-- The composite "per-candidate vote counts" sentinel label. -/
def candidateSentinel : String := "후보자별 득표수"

/-- The two-header-row branch of `_extract_headers` (lines 80-110): walk the
first row, consuming second-row cells only for the sentinel label; afterwards
append the unconsumed second-row cells. -/
def extractHeadersTwo : List HeaderCell → List HeaderCell → List String
  | [], secondRow => secondRow.map (fun c => cleanText c.text)
  | c :: rest, secondRow =>
    if c.rowspan = 2 then cleanText c.text :: extractHeadersTwo rest secondRow
    else if cleanText c.text = candidateSentinel then
      (secondRow.take c.colspan).map (fun cc => cleanText cc.text)
        ++ extractHeadersTwo rest (secondRow.drop c.colspan)
    else cleanText c.text :: extractHeadersTwo rest secondRow

/-- Modelled from the claim's words: a first-row cell with rowspan 2 is emitted
once; a cell with rowspan 1 whose text is the sentinel consumes its colspan-many
second-row cells; any other label is emitted as-is. -/
def specHeadersTwo : List HeaderCell → List HeaderCell → List String
  | [], secondRow => secondRow.map (fun c => cleanText c.text)
  | c :: rest, secondRow =>
    if c.rowspan = 2 then cleanText c.text :: specHeadersTwo rest secondRow
    else if c.rowspan = 1 ∧ cleanText c.text = candidateSentinel then
      (secondRow.take c.colspan).map (fun cc => cleanText cc.text)
        ++ specHeadersTwo rest (secondRow.drop c.colspan)
    else cleanText c.text :: specHeadersTwo rest secondRow

/-! ## Data-row records (`_extract_data_rows`, html_to_csv_parser.py lines 118-153)

A Python dict with string keys and values is modelled as an association list in
insertion order: updating an existing key rewrites it in place, a new key is
appended, and lookup returns the unique (first) binding. -/

def dictContains (d : List (String × String)) (k : String) : Bool :=
  d.any (fun p => p.1 == k)

def dictInsert (d : List (String × String)) (k v : String) : List (String × String) :=
  if dictContains d k then d.map (fun p => if p.1 == k then (k, v) else p)
  else d ++ [(k, v)]

def dictLookup (d : List (String × String)) (k : String) : Option String :=
  (d.find? (fun p => p.1 == k)).map Prod.snd

/-- The key a cell at position `i` is stored under: the header at that position
when one exists, else the synthetic overflow key. -/
def keyAt (headers : List String) (i : Nat) : String :=
  match headers.get? i with
  | some h => h
  | none => "Extra_Column_" ++ Nat.repr i

/-- The cell-mapping loop of `_extract_data_rows` (lines 138-144). -/
def buildRowData (headers : List String) : List String → Nat → List (String × String) →
    List (String × String)
  | [], _, d => d
  | c :: cs, i, d => buildRowData headers cs (i + 1) (dictInsert d (keyAt headers i) (cleanText c))

/-- The fill loop of `_extract_data_rows` (lines 147-149): every header not yet
present is added with the empty string. -/
def fillMissing (headers : List String) (d0 : List (String × String)) :
    List (String × String) :=
  headers.foldl (fun d h => if dictContains d h then d else dictInsert d h "") d0

/-- The record built for one data row. -/
def extractRowRecord (headers cells : List String) : List (String × String) :=
  fillMissing headers (buildRowData headers cells 0 [])

/-- The bindings the cell-mapping loop produces when all keys are fresh: one
pair per cell, keyed positionally. -/
def rowPairs (headers : List String) : List String → Nat → List (String × String)
  | [], _ => []
  | c :: cs, i => (keyAt headers i, cleanText c) :: rowPairs headers cs (i + 1)

/-- `_extract_data_rows` over the body rows (cell texts raw, as `get_text()`
returns them); rows without cells are skipped. -/
def extractDataRows (headers : List String) (rows : List (List String)) :
    List (List (String × String)) :=
  (rows.filter (fun r => !r.isEmpty)).map (extractRowRecord headers)

/-! ## Filename resolution (`_sanitize_filename` lines 227-247,
`_get_filename_from_response` lines 411-464) -/

/-- The characters `_sanitize_filename` replaces: `<>:"/\|?*`. -/
def invalidFilenameChars : List Char :=
  ['<', '>', ':', Char.ofNat 34, '/', Char.ofNat 92, '|', '?', '*']

/-- One `filename.replace(char, "_")` pass. -/
def sanitizeReplaceStep (l : List Char) (c : Char) : List Char :=
  l.map (fun x => if x == c then '_' else x)

/-- Index of the last `.` in `l`, if any. -/
def lastDotIdx (l : List Char) : Option Nat :=
  match l.reverse.findIdx? (fun c => c == '.') with
  | some k => some (l.length - 1 - k)
  | none => none

/-- `os.path.splitext` on a path without directory separators: split at the
last dot, provided some non-dot character precedes it (so leading dots alone
never begin an extension). -/
def splitext (l : List Char) : List Char × List Char :=
  match lastDotIdx l with
  | none => (l, [])
  | some d =>
    if (l.take d).any (fun c => !(c == '.')) then (l.take d, l.drop d)
    else (l, [])

/-- `_sanitize_filename`: replace each invalid character by `_`; if the result
is over 200 characters, cut the pre-extension part to 195 characters and
reattach the extension; finally `.strip()` whitespace. -/
def sanitizeFilename (s : String) : String :=
  let l := invalidFilenameChars.foldl sanitizeReplaceStep s.data
  let l2 := if 200 < l.length then (splitext l).1.take 195 ++ (splitext l).2 else l
  String.mk (pyStrip l2)

/-- `s.strip(chars)` for an explicit character set. -/
def stripSet (cs : List Char) (l : List Char) : List Char :=
  ((l.dropWhile (fun c => cs.contains c)).reverse.dropWhile (fun c => cs.contains c)).reverse

/-- The quote characters stripped off the content-disposition filename. -/
def quoteChars : List Char := [Char.ofNat 34, Char.ofNat 39]

/-- Drop everything through the first occurrence of `sep`; `none` when `sep`
does not occur. -/
def afterFirst (sep : List Char) : List Char → Option (List Char)
  | [] => if sep.isEmpty then some [] else none
  | c :: rest =>
    if sep.isPrefixOf (c :: rest) then some ((c :: rest).drop sep.length)
    else afterFirst sep rest

/-- The prefix up to (excluding) the next occurrence of `sep`. -/
def upToNext (sep : List Char) : List Char → List Char
  | [] => []
  | c :: rest => if sep.isPrefixOf (c :: rest) then [] else c :: upToNext sep rest

/-- `s.split(sep)[1]`: the segment between the first occurrence of `sep` and
the following one; `none` when `sep` does not occur. -/
def pySplitSecond (sep l : List Char) : Option (List Char) :=
  (afterFirst sep l).map (upToNext sep)

def hexVal? (c : Char) : Option Nat :=
  if '0' ≤ c ∧ c ≤ '9' then some (c.toNat - 48)
  else if 'a' ≤ c ∧ c ≤ 'f' then some (c.toNat - 97 + 10)
  else if 'A' ≤ c ∧ c ≤ 'F' then some (c.toNat - 65 + 10)
  else none

def codesToChars (cps : List Nat) : List Char := cps.map Char.ofNat

/-- Percent-decoding core of `urllib.parse.unquote` (defaults: utf-8, replace):
runs of `%XX` escapes accumulate bytes that are decoded as UTF-8 with
`errors="replace"` when the run ends; a malformed escape stays literal. -/
def percentDecode : List Char → List Nat → List Char
  | [], pending => codesToChars (utf8DecodeReplace pending)
  | '%' :: c1 :: c2 :: rest, pending =>
    match hexVal? c1, hexVal? c2 with
    | some hi, some lo => percentDecode rest (pending ++ [hi * 16 + lo])
    | _, _ =>
      codesToChars (utf8DecodeReplace pending) ++ '%' :: percentDecode (c1 :: c2 :: rest) []
  | c :: rest, pending =>
    codesToChars (utf8DecodeReplace pending) ++ c :: percentDecode rest []

/-- `urllib.parse.unquote_plus(s, encoding="utf-8")`. -/
def unquotePlus (s : String) : String :=
  String.mk (percentDecode (s.data.map (fun c => if c == '+' then ' ' else c)) [])

/-- The fallback filename base `election_report_{city}_{town}_{timestamp}`. -/
def fallbackBase (cityCode townCode : String) (timestamp : Nat) : String :=
  "election_report_" ++ cityCode ++ "_" ++ townCode ++ "_" ++ Nat.repr timestamp

def filenameSep : List Char := "filename=".data

/-- `_get_filename_from_response`, returning the base and the extension
separately (the source concatenates them).  The header-parsing `except` branch
is unreachable: none of the string operations involved can raise. -/
def getFilenameFromResponse (r : HttpResponse) (cityCode townCode : String)
    (timestamp : Nat) : String × String :=
  let contentType := detectContentType r
  let headerBase : Option String :=
    match r.contentDisposition with
    | none => none
    | some cd =>
      match pySplitSecond filenameSep cd.data with
      | none => none
      | some fnPart =>
        let fn := unquotePlus (String.mk (stripSet quoteChars fnPart))
        some (String.mk (splitext (sanitizeFilename fn).data).1)
  let base :=
    match headerBase with
    | some b => if b = "" then fallbackBase cityCode townCode timestamp else b
    | none => fallbackBase cityCode townCode timestamp
  if contentType = "html" then (base, ".html")
  else if contentType = "excel" then (base, ".xls")
  else (base, ".html")

/-- Modelled from the claim's words: sanitization replaces every character of
the invalid set in one pass; over-long names are cut before the extension. -/
def specSanitize (s : String) : String :=
  let replaced := s.data.map (fun c => if invalidFilenameChars.contains c then '_' else c)
  let truncated :=
    if 200 < replaced.length then (splitext replaced).1.take 195 ++ (splitext replaced).2
    else replaced
  String.mk (pyStrip truncated)

/-- Modelled from the amended claim's words: the base is the
content-disposition filename — URL-decoded, sanitized, truncated, with its
final extension removed — when the header is present and parseable to a
non-empty base, otherwise the fallback; the suffix is `.xls` exactly when the
content classifies as spreadsheet and `.html` otherwise (html or unknown). -/
def specResolveFilename (r : HttpResponse) (cityCode townCode : String) (timestamp : Nat) :
    String × String :=
  let base :=
    match r.contentDisposition with
    | none => fallbackBase cityCode townCode timestamp
    | some cd =>
      match pySplitSecond filenameSep cd.data with
      | none => fallbackBase cityCode townCode timestamp
      | some raw =>
        let b := String.mk
          (splitext (specSanitize (unquotePlus (String.mk (stripSet quoteChars raw)))).data).1
        if b = "" then fallbackBase cityCode townCode timestamp else b
  (base, if specClassifyAmended r = ContentKind.spreadsheet then ".xls" else ".html")

/-! ## Filesystem, validity checks and the per-task download
(election_crawler.py lines 253-365) -/

/-- A path inside the download directory, split as the source manipulates it:
`Path.with_suffix` swaps `ext` and leaves `stem` alone. -/
structure DPath where
  stem : String
  ext : String
  deriving DecidableEq

/-- The filesystem: contents (byte lists) keyed by path. -/
def FileSystem : Type := List (DPath × List Nat)

def fsLookup (fs : FileSystem) (p : DPath) : Option (List Nat) :=
  (fs.find? (fun q => q.1 == p)).map Prod.snd

def fsWrite (fs : FileSystem) (p : DPath) (content : List Nat) : FileSystem :=
  (p, content) :: fs.filter (fun q => !(q.1 == p))

/-- `_validate_file_size` (lines 280-295): under 512 bytes is not valid. -/
def validateFileSize (content : List Nat) : Bool :=
  if content.length < 512 then false else true

def alternativeExtensions : List String := [".html", ".xls", ".xlsx"]

/-- `_file_exists_and_valid` (lines 253-278): if the exact path exists its size
alone decides; otherwise the first existing alternative-extension sibling
decides; otherwise false. -/
def fileExistsAndValid (fs : FileSystem) (p : DPath) : Bool :=
  match fsLookup fs p with
  | some c => validateFileSize c
  | none =>
    match alternativeExtensions.find? (fun e => (fsLookup fs ⟨p.stem, e⟩).isSome) with
    | some e =>
      match fsLookup fs ⟨p.stem, e⟩ with
      | some c => validateFileSize c
      | none => false
    | none => false

/-- `_validate_downloaded_content` (lines 466-535): the file must exist and be
at least 512 bytes; every further content inspection (HTML tags, spreadsheet
magic bytes, error-page tokens) only logs a warning and the function then
returns true, so those branches collapse here. -/
def validateDownloadedContent (fs : FileSystem) (p : DPath) : Bool :=
  match fsLookup fs p with
  | none => false
  | some content => if content.length < 512 then false else true

structure CrawlStats where
  downloaded : Nat
  errors : Nat
  skipped : Nat
  total_size : Nat
  deriving DecidableEq

structure DownloadOutcome where
  stats : CrawlStats
  fs : FileSystem
  ok : Bool

/-- The target path the download resolves for a response. -/
def targetPathOf (downloadDir : String) (r : HttpResponse) (cityCode townCode : String)
    (timestamp : Nat) : DPath :=
  ⟨downloadDir ++ "/" ++ (getFilenameFromResponse r cityCode townCode timestamp).1,
   (getFilenameFromResponse r cityCode townCode timestamp).2⟩

/-- `download_excel_for_location` (lines 297-365).  `resp` is the outcome of
`_make_request_with_retry`: `.error` when it (or anything else inside the
`try`) raises, in which case the catch-all `except` records an error.  Writing
the streamed body always succeeds in this model; `file_size` accumulates to the
body length. -/
def downloadExcelForLocation (stats : CrawlStats) (fs : FileSystem) (downloadDir : String)
    (resp : Except Unit HttpResponse) (cityCode townCode : String) (timestamp : Nat) :
    DownloadOutcome :=
  match resp with
  | .error _ => ⟨{ stats with errors := stats.errors + 1 }, fs, false⟩
  | .ok r =>
    let filepath := targetPathOf downloadDir r cityCode townCode timestamp
    if fileExistsAndValid fs filepath then
      ⟨{ stats with skipped := stats.skipped + 1 }, fs, true⟩
    else
      let fs2 := fsWrite fs filepath r.content
      let fileSize := r.content.length
      if validateDownloadedContent fs2 filepath then
        ⟨{ stats with downloaded := stats.downloaded + 1,
                      total_size := stats.total_size + fileSize }, fs2, true⟩
      else ⟨{ stats with errors := stats.errors + 1 }, fs2, false⟩

/-- Modelled from the amended claim's words: the file the skip check actually
inspects — the exact target if present, else the first existing sibling among
the alternative extensions in order. -/
def firstExistingFile (fs : FileSystem) (p : DPath) : Option (List Nat) :=
  match fsLookup fs p with
  | some c => some c
  | none =>
    (alternativeExtensions.map (fun e => (⟨p.stem, e⟩ : DPath))).findSome? (fun q => fsLookup fs q)

/-! ## Retry logic (`_make_request_with_retry`, election_crawler.py lines 117-151) -/

def MAX_RETRIES : Nat := 3

def RETRY_DELAY : ℚ := 2

/-- The distinguished crawler error (`ElectionCrawlerError`): either wrapping
the last transport failure after exhausting the retries (line 149), or the
unreachable fall-through after the loop (line 151). -/
inductive CrawlerFailure where
  | wrapped (last : Nat)
  | unexpectedRetryLogic
  deriving DecidableEq

structure RetryTrace where
  result : Except CrawlerFailure HttpResponse
  transportCalls : Nat
  sleeps : List ℚ

/-- The `for attempt in range(MAX_RETRIES)` loop.  `transport i` is the outcome
of the i-th `session.request` (its `Nat` error identifies the
`RequestException` raised); `jitter i` is the `random.uniform(0.5, 1.5)` draw
before attempt `i`.  The trace records the result, how many times the
transport was invoked, and every sleep performed, in order. -/
def retryLoop (transport : Nat → Except Nat HttpResponse) (jitter : Nat → ℚ) :
    List Nat → RetryTrace
  | [] => ⟨.error .unexpectedRetryLogic, 0, []⟩
  | attempt :: rest =>
    let sleepsHere : List ℚ :=
      if 0 < attempt then [RETRY_DELAY * 2 ^ attempt * jitter attempt] else []
    match transport attempt with
    | .ok r => ⟨.ok r, 1, sleepsHere⟩
    | .error e =>
      if attempt = MAX_RETRIES - 1 then ⟨.error (.wrapped e), 1, sleepsHere⟩
      else
        let t := retryLoop transport jitter rest
        ⟨t.result, t.transportCalls + 1, sleepsHere ++ t.sleeps⟩

def makeRequestWithRetry (transport : Nat → Except Nat HttpResponse) (jitter : Nat → ℚ) :
    RetryTrace :=
  retryLoop transport jitter (List.range MAX_RETRIES)

/-! ## Sub-region lookup (`get_town_codes_for_city`, election_crawler.py lines 190-225)

Python values arriving from `response.json()` are modelled by `Jv`; Python
exceptions by `PyErr`.  `.error PyErr.electionCrawlerError` models the
`ElectionCrawlerError` that `_make_request_with_retry` raises when every
attempt fails — note it is neither a `RequestException` nor a `ValueError`. -/

inductive Jv where
  | null
  | bool (b : Bool)
  | num (n : Int)
  | str (s : String)
  | arr (xs : List Jv)
  | obj (fields : List (String × Jv))

inductive PyErr where
  | requestException
  | valueError
  | electionCrawlerError
  | keyError
  | typeError
  | attributeError
  deriving DecidableEq

/-- Python `v == key` for a string literal `key`: only equal strings compare
equal; any other value is simply unequal. -/
def pyEqStr (v : Jv) (key : String) : Bool :=
  match v with
  | .str s => s == key
  | _ => false

/-- Lookup in a parsed JSON object (Python dict). -/
def jGet (fields : List (String × Jv)) (k : String) : Option Jv :=
  (fields.find? (fun p => p.1 == k)).map Prod.snd

/-- Python `key in v`: key test for dicts, membership for lists, substring for
strings, `TypeError` otherwise. -/
def pyContains (v : Jv) (key : String) : Except PyErr Bool :=
  match v with
  | .obj fields => .ok (fields.any (fun p => p.1 == key))
  | .arr xs => .ok (xs.any (fun x => pyEqStr x key))
  | .str s => .ok (listInfix key.data s.data)
  | _ => .error .typeError

/-- Python `v[key]`: dict indexing (`KeyError` when absent); lists and strings
reject string indices with `TypeError`, as does everything else. -/
def pyIndex (v : Jv) (key : String) : Except PyErr Jv :=
  match v with
  | .obj fields =>
    match jGet fields key with
    | some x => .ok x
    | none => .error .keyError
  | _ => .error .typeError

/-- The `for item in town_data` loop (lines 217-219): `item.get("CODE")` needs
a dict (`AttributeError` otherwise); the sentinel `"-1"` is skipped; kept items
are indexed with `item["CODE"]` / `item["NAME"]`, raising `KeyError` when the
key is missing. -/
def extractTownList : List Jv → Except PyErr (List (Jv × Jv))
  | [] => .ok []
  | item :: rest =>
    match item with
    | .obj fields =>
      let codeVal := jGet fields "CODE"
      let keep : Bool :=
        match codeVal with
        | none => true
        | some v => !pyEqStr v "-1"
      if keep then
        match codeVal with
        | none => .error .keyError
        | some c =>
          match jGet fields "NAME" with
          | none => .error .keyError
          | some n =>
            match extractTownList rest with
            | .ok l => .ok ((c, n) :: l)
            | .error e => .error e
      else extractTownList rest
    | _ => .error .attributeError

/-- Iterating `town_data` itself: lists iterate their items; strings iterate
characters and dicts iterate keys, so a non-empty one hits `AttributeError` on
`item.get` at the first item; other values are not iterable. -/
def iterTownData (v : Jv) : Except PyErr (List (Jv × Jv)) :=
  match v with
  | .arr xs => extractTownList xs
  | .str s => if s.isEmpty then .ok [] else .error .attributeError
  | .obj fields => if fields.isEmpty then .ok [] else .error .attributeError
  | _ => .error .typeError

/-- The body of the `try` block (lines 205-221): propagate the request error,
then the `response.json()` error, then unwrap the `jsonResult.body` envelope
when present, then extract the town list.  `reqResult` is the outcome of
`_make_request_with_retry`; its payload is the outcome of `response.json()`. -/
def townCodesBody (reqResult : Except PyErr (Except PyErr Jv)) :
    Except PyErr (List (Jv × Jv)) := do
  let jsonOf ← reqResult
  let data ← jsonOf
  let c1 ← pyContains data "jsonResult"
  let townData ←
    if c1 then do
      let sub ← pyIndex data "jsonResult"
      let c2 ← pyContains sub "body"
      if c2 then pyIndex sub "body" else pure data
    else pure data
  iterTownData townData

/-- `get_town_codes_for_city`: the `except` clause catches only
`RequestException` and `ValueError` (line 223) and turns them into `[]`;
every other exception propagates. -/
def getTownCodesForCity (reqResult : Except PyErr (Except PyErr Jv)) :
    Except PyErr (List (Jv × Jv)) :=
  match townCodesBody reqResult with
  | .ok l => .ok l
  | .error .requestException => .ok []
  | .error .valueError => .ok []
  | .error e => .error e

/-! ## Run-level propagation (`get_city_town_codes` lines 153-188,
`_crawl_sequential` lines 566-582, `crawl_all_locations` lines 537-564) -/

structure LocationInfo where
  code : String
  name : String

/-- `get_city_town_codes`: any exception while fetching or parsing the initial
page is re-raised as `ElectionCrawlerError` (line 188). -/
def getCityTownCodes (raw : Except PyErr (List LocationInfo)) :
    Except PyErr (List LocationInfo) :=
  match raw with
  | .ok cities => .ok cities
  | .error _ => .error .electionCrawlerError

/-- `_crawl_sequential`: for each city the town lookup runs outside any `try`,
so its exceptions propagate; the per-town downloads are
`download_excel_for_location`, which catches everything and returns a `Bool`
(see `downloadExcelForLocation`), so they contribute no exceptions. -/
def crawlSequential (towns : String → Except PyErr (List (Jv × Jv))) :
    List LocationInfo → Except PyErr Unit
  | [] => .ok ()
  | city :: rest =>
    match towns city.code with
    | .error e => .error e
    | .ok _ => crawlSequential towns rest

/-- `crawl_all_locations` (sequential mode): the surrounding
`except Exception` logs and re-raises (line 564), so every exception escaping
the body escapes the run. -/
def crawlAllLocations (raw : Except PyErr (List LocationInfo))
    (towns : String → Except PyErr (List (Jv × Jv))) : Except PyErr Unit :=
  match getCityTownCodes raw with
  | .error e => .error e
  | .ok cities => crawlSequential towns cities

/-! ## Claim C1 -/

/-- C1 counterexample: a response whose header is `application/octet-stream`
and whose body is the single byte `0xFF` — a byte prefix that cannot be decoded
as UTF-8 at all — classifies as `spreadsheet` by the claim's rule 5, but the
code classifies it `unknown`: decoding with `errors="ignore"` never fails, so
the undecodable-prefix rule is dead code. -/
theorem c1_classifier_chain_counterexample :
    specClassify ⟨some "application/octet-stream", none, [0xFF]⟩ = ContentKind.spreadsheet
    ∧ utf8Valid [0xFF] = false
    ∧ detectContentType ⟨some "application/octet-stream", none, [0xFF]⟩ = "unknown"
    ∧ kindOfString "unknown" ≠ ContentKind.spreadsheet :=
  ⟨rfl, rfl, rfl, by decide⟩

/-- C1 amended: the classifier follows the claim's ordered chain with rule 5
removed — header says html, header says spreadsheet, HTML marker in the first
4KB of text, OLE2/ZIP signature in the first 8 bytes, otherwise unknown.  In
particular `application/octet-stream` with byte prefix `PK\x03\x04` classifies
as spreadsheet. -/
theorem c1_classifier_chain (r : HttpResponse) :
    kindOfString (detectContentType r) = specClassifyAmended r
    ∧ kindOfString (detectContentType
        ⟨some "application/octet-stream", none, [0x50, 0x4B, 0x03, 0x04]⟩)
        = ContentKind.spreadsheet :=
  ⟨detect_eq_specAmended r, rfl⟩

/-! ## Claim C2 -/

/-- C2: for tables with two header rows, a first-row cell with rowspan 2 is
emitted once; a rowspan-1 cell carrying the sentinel text consumes its
colspan-many second-row cells as distinct headers; any other label is emitted
as-is; leftover second-row cells are appended.  (The hypothesis pins the
sentinel cells to rowspan 1 or 2, the only cases the claim describes: the code
conditions on `rowspan ≠ 2` where the claim says `rowspan = 1`.)  In
particular `[A(rowspan 2), sentinel(colspan 2, rowspan 1)]` over `[C, D]`
reconstructs to `[A, C, D]`. -/
theorem c2_header_reconstruction (firstRow secondRow : List HeaderCell)
    (h : ∀ c ∈ firstRow, cleanText c.text = candidateSentinel → c.rowspan = 1 ∨ c.rowspan = 2) :
    extractHeadersTwo firstRow secondRow = specHeadersTwo firstRow secondRow
    ∧ extractHeadersTwo [⟨"A", 1, 2⟩, ⟨"후보자별 득표수", 2, 1⟩] [⟨"C", 1, 1⟩, ⟨"D", 1, 1⟩]
        = ["A", "C", "D"] := by
  refine ⟨?_, rfl⟩
  induction firstRow generalizing secondRow with
  | nil => rfl
  | cons c rest ih =>
    have hc := h c (by simp)
    have hrest : ∀ x ∈ rest, cleanText x.text = candidateSentinel → x.rowspan = 1 ∨ x.rowspan = 2 :=
      fun x hx => h x (by simp [hx])
    by_cases h2 : c.rowspan = 2
    · simp [extractHeadersTwo, specHeadersTwo, h2, ih _ hrest]
    · by_cases hs : cleanText c.text = candidateSentinel
      · have h1 : c.rowspan = 1 := (hc hs).resolve_right h2
        simp [extractHeadersTwo, specHeadersTwo, h2, hs, h1, ih _ hrest]
      · simp [extractHeadersTwo, specHeadersTwo, h2, hs, ih _ hrest]

theorem c2_header_reconstruction_witness :
    extractHeadersTwo [⟨"A", 1, 2⟩, ⟨"후보자별 득표수", 2, 1⟩] [⟨"C", 1, 1⟩, ⟨"D", 1, 1⟩]
      = specHeadersTwo [⟨"A", 1, 2⟩, ⟨"후보자별 득표수", 2, 1⟩] [⟨"C", 1, 1⟩, ⟨"D", 1, 1⟩] :=
  (c2_header_reconstruction _ _ (by decide)).1

/-! ## Claim C3 -/

/-- Filesystem for the C3 counterexample: no file at the target, a 100-byte
sibling with extension `.xls` and a 1000-byte sibling with extension `.xlsx`. -/
def c3FsBefore : FileSystem :=
  [(⟨"d/election_report_11_1101_77", ".xls"⟩, List.replicate 100 97),
   (⟨"d/election_report_11_1101_77", ".xlsx"⟩, List.replicate 1000 97)]

def c3Response : HttpResponse := ⟨some "text/html", none, [120]⟩

def c3Outcome : DownloadOutcome :=
  downloadExcelForLocation ⟨0, 0, 0, 0⟩ c3FsBefore "d" (.ok c3Response) "11" "1101" 77

/-- C3 counterexample: a sibling path (`.xlsx`) holds an existing 1000-byte
file, so by the claim the task must be skipped and nothing written — but the
existence check stops at the first existing sibling (`.xls`, 100 bytes, too
small), so the code does not skip: it writes the response body to the target
path and records an error (the 1-byte response fails post-write validation). -/
theorem c3_skip_counterexample :
    fsLookup c3FsBefore ⟨"d/election_report_11_1101_77", ".xlsx"⟩
        = some (List.replicate 1000 97)
    ∧ 512 ≤ (List.replicate 1000 (97 : Nat)).length
    ∧ targetPathOf "d" c3Response "11" "1101" 77 = ⟨"d/election_report_11_1101_77", ".html"⟩
    ∧ c3Outcome.stats.skipped = 0
    ∧ c3Outcome.stats.errors = 1
    ∧ c3Outcome.ok = false
    ∧ fsLookup c3Outcome.fs (targetPathOf "d" c3Response "11" "1101" 77) = some [120] :=
  ⟨rfl, by simp only [List.length_replicate]; norm_num, rfl, rfl, rfl, rfl, rfl⟩

theorem fileExistsAndValid_eq_firstExisting (fs : FileSystem) (p : DPath) :
    fileExistsAndValid fs p = (firstExistingFile fs p).elim false validateFileSize := by
  unfold fileExistsAndValid firstExistingFile
  cases h : fsLookup fs p with
  | some c => simp [h]
  | none =>
    simp only [h, alternativeExtensions, List.map, List.find?, List.findSome?]
    cases h1 : fsLookup fs ⟨p.stem, ".html"⟩ <;>
      cases h2 : fsLookup fs ⟨p.stem, ".xls"⟩ <;>
        cases h3 : fsLookup fs ⟨p.stem, ".xlsx"⟩ <;>
          simp [h1, h2, h3]

/-- C3 amended: the skip decision is first-found — the exact target path if it
exists, else the first existing sibling among `.html`, `.xls`, `.xlsx` in that
order, decides by its size alone; when that first-found file is at least 512
bytes the download records Skipped, returns success and leaves the filesystem
unchanged (a first-found file under 512 bytes does not trigger the skip). -/
theorem c3_first_found_skip (stats : CrawlStats) (fs : FileSystem) (downloadDir : String)
    (r : HttpResponse) (cityCode townCode : String) (timestamp : Nat)
    (h : (firstExistingFile fs (targetPathOf downloadDir r cityCode townCode timestamp)).elim
          false validateFileSize = true) :
    (∀ p : DPath, fileExistsAndValid fs p = (firstExistingFile fs p).elim false validateFileSize)
    ∧ downloadExcelForLocation stats fs downloadDir (.ok r) cityCode townCode timestamp
        = ⟨{ stats with skipped := stats.skipped + 1 }, fs, true⟩ := by
  refine ⟨fun p => fileExistsAndValid_eq_firstExisting fs p, ?_⟩
  have hv : fileExistsAndValid fs (targetPathOf downloadDir r cityCode townCode timestamp)
      = true := by
    rw [fileExistsAndValid_eq_firstExisting]; exact h
  dsimp only [downloadExcelForLocation]
  rw [if_pos hv]

/-- Filesystem for the C3 witness: a valid 600-byte file at the target path. -/
def c3SkipFs : FileSystem :=
  [(⟨"d/election_report_11_1101_77", ".html"⟩, List.replicate 600 97)]

theorem c3_first_found_skip_witness :
    ((firstExistingFile c3SkipFs (targetPathOf "d" c3Response "11" "1101" 77)).elim
        false validateFileSize = true)
    ∧ downloadExcelForLocation ⟨0, 0, 0, 0⟩ c3SkipFs "d" (.ok c3Response) "11" "1101" 77
        = ⟨⟨0, 0, 1, 0⟩, c3SkipFs, true⟩ :=
  ⟨rfl, (c3_first_found_skip ⟨0, 0, 0, 0⟩ c3SkipFs "d" c3Response "11" "1101" 77 rfl).2⟩

/-! ## Claim C10 -/

/-- C10: every call to the per-task download increments exactly one of the
three counters by exactly one; it returns true exactly when it incremented
downloaded or skipped; total_size never changes on a skipped or errored call
(so it can only grow on a call that increments downloaded). -/
theorem c10_one_counter_per_call (stats : CrawlStats) (fs : FileSystem) (downloadDir : String)
    (resp : Except Unit HttpResponse) (cityCode townCode : String) (timestamp : Nat) :
    let out := downloadExcelForLocation stats fs downloadDir resp cityCode townCode timestamp
    (out.stats.downloaded = stats.downloaded + 1 ∧ out.stats.skipped = stats.skipped
      ∧ out.stats.errors = stats.errors ∧ stats.total_size ≤ out.stats.total_size
      ∧ out.ok = true)
    ∨ (out.stats.skipped = stats.skipped + 1 ∧ out.stats.downloaded = stats.downloaded
      ∧ out.stats.errors = stats.errors ∧ out.stats.total_size = stats.total_size
      ∧ out.ok = true)
    ∨ (out.stats.errors = stats.errors + 1 ∧ out.stats.downloaded = stats.downloaded
      ∧ out.stats.skipped = stats.skipped ∧ out.stats.total_size = stats.total_size
      ∧ out.ok = false) := by
  cases resp with
  | error e => exact Or.inr (Or.inr ⟨rfl, rfl, rfl, rfl, rfl⟩)
  | ok r =>
    dsimp only [downloadExcelForLocation]
    by_cases hv : fileExistsAndValid fs (targetPathOf downloadDir r cityCode townCode timestamp)
        = true
    · rw [if_pos hv]
      exact Or.inr (Or.inl ⟨rfl, rfl, rfl, rfl, rfl⟩)
    · rw [if_neg hv]
      by_cases hval : validateDownloadedContent
          (fsWrite fs (targetPathOf downloadDir r cityCode townCode timestamp) r.content)
          (targetPathOf downloadDir r cityCode townCode timestamp) = true
      · rw [if_pos hval]
        exact Or.inl ⟨rfl, rfl, rfl, Nat.le_add_right _ _, rfl⟩
      · rw [if_neg hval]
        exact Or.inr (Or.inr ⟨rfl, rfl, rfl, rfl, rfl⟩)

/-! ## Claim C4 -/

/-- C4: against a transport that fails on every attempt, the retry loop invokes
the transport exactly `MAX_RETRIES = 3` times, sleeps
`RETRY_DELAY * 2 ^ attempt * jitter attempt` before attempts 1 and 2 (never
before attempt 0), and ends with the distinguished crawler error wrapping the
last transport failure. -/
theorem c4_retry_exhaustion (transport : Nat → Except Nat HttpResponse) (jitter : Nat → ℚ)
    (errOf : Nat → Nat) (ht : ∀ i, i < MAX_RETRIES → transport i = .error (errOf i)) :
    (makeRequestWithRetry transport jitter).transportCalls = 3
    ∧ (makeRequestWithRetry transport jitter).result = .error (.wrapped (errOf 2))
    ∧ (makeRequestWithRetry transport jitter).sleeps =
        [RETRY_DELAY * 2 ^ 1 * jitter 1, RETRY_DELAY * 2 ^ 2 * jitter 2] := by
  have h0 := ht 0 (by norm_num [MAX_RETRIES])
  have h1 := ht 1 (by norm_num [MAX_RETRIES])
  have h2 := ht 2 (by norm_num [MAX_RETRIES])
  have hr : List.range MAX_RETRIES = [0, 1, 2] := rfl
  refine ⟨?_, ?_, ?_⟩ <;>
    simp [makeRequestWithRetry, hr, retryLoop, h0, h1, h2, MAX_RETRIES]

def alwaysFailTransport : Nat → Except Nat HttpResponse := fun i => .error i

def unitJitter : Nat → ℚ := fun _ => 1

theorem c4_retry_exhaustion_witness :
    (makeRequestWithRetry alwaysFailTransport unitJitter).transportCalls = 3
    ∧ (makeRequestWithRetry alwaysFailTransport unitJitter).result = .error (.wrapped 2)
    ∧ (makeRequestWithRetry alwaysFailTransport unitJitter).sleeps =
        [RETRY_DELAY * 2 ^ 1 * unitJitter 1, RETRY_DELAY * 2 ^ 2 * unitJitter 2] :=
  c4_retry_exhaustion alwaysFailTransport unitJitter (fun i => i) (fun _ _ => rfl)

/-! ## Claim C5 -/

/-- C5 (code bug evidence): the sub-region lookup is supposed never to raise,
but (1) when every retry fails, `_make_request_with_retry` raises
`ElectionCrawlerError`, which the `except (RequestException, ValueError)`
clause does not catch, so the call propagates it instead of returning `[]`;
(2) a malformed shape such as `[{}]` propagates `KeyError`.  The recovery path
does work for malformed JSON (`ValueError` gives `[]`), and on the well-formed
envelope shape entries with code `"-1"` are excluded. -/
theorem c5_town_codes_raises :
    getTownCodesForCity (.error .electionCrawlerError) = .error .electionCrawlerError
    ∧ getTownCodesForCity (.ok (.ok (Jv.arr [Jv.obj []]))) = .error .keyError
    ∧ getTownCodesForCity (.error .valueError) = .ok []
    ∧ getTownCodesForCity (.ok (.error .valueError)) = .ok []
    ∧ getTownCodesForCity (.ok (.ok (Jv.obj [("jsonResult", Jv.obj [("body", Jv.arr
        [Jv.obj [("CODE", Jv.str "-1"), ("NAME", Jv.str "x")],
         Jv.obj [("CODE", Jv.str "1101"), ("NAME", Jv.str "종로구")]])])])))
        = .ok [(Jv.str "1101", Jv.str "종로구")] :=
  ⟨rfl, rfl, rfl, rfl, rfl⟩

/-! ## Claim C8 -/

/-- C8 (code bug evidence): region listing succeeds, but the sub-region lookup
for the first region hits a network failure whose `ElectionCrawlerError`
escapes `get_town_codes_for_city`; `_crawl_sequential` and
`crawl_all_locations` re-raise it, so the whole run aborts even though regions
were listed fine — contradicting "only failure to list regions at the very
start raises an error that propagates out of the run". -/
theorem c8_subregion_failure_aborts_run :
    crawlAllLocations (.ok [⟨"1100", "서울특별시"⟩])
        (fun _ => getTownCodesForCity (.error .electionCrawlerError))
      = .error .electionCrawlerError :=
  rfl

/-! ## Claim C6: lemmas about row records -/

theorem dictInsert_fresh (d : List (String × String)) (k v : String)
    (h : dictContains d k = false) : dictInsert d k v = d ++ [(k, v)] := by
  unfold dictInsert
  rw [if_neg]
  simp [h]

theorem dictContains_append (d e : List (String × String)) (k : String) :
    dictContains (d ++ e) k = (dictContains d k || dictContains e k) := by
  simp [dictContains, List.any_append]

theorem dictContains_single (p : String × String) (k : String) :
    dictContains [p] k = (p.1 == k) := by
  simp [dictContains]

theorem buildRowData_eq (headers : List String) (cs : List String) :
    ∀ (i : Nat) (d : List (String × String)),
      (∀ j, i ≤ j → j < i + cs.length → dictContains d (keyAt headers j) = false) →
      (∀ j k, i ≤ j → j < i + cs.length → i ≤ k → k < i + cs.length →
        keyAt headers j = keyAt headers k → j = k) →
      buildRowData headers cs i d = d ++ rowPairs headers cs i := by
  induction cs with
  | nil => intro i d _ _; simp [buildRowData, rowPairs]
  | cons c cs' ih =>
    intro i d hf hinj
    have hfi : dictContains d (keyAt headers i) = false :=
      hf i (Nat.le_refl i) (by simp only [List.length_cons]; omega)
    rw [buildRowData, dictInsert_fresh d _ _ hfi]
    rw [ih (i + 1) (d ++ [(keyAt headers i, cleanText c)]) ?_ ?_]
    · rw [rowPairs, List.append_assoc]
      rfl
    · intro j hj1 hj2
      rw [dictContains_append, Bool.or_eq_false_iff]
      constructor
      · exact hf j (by omega) (by simp only [List.length_cons] at hj2 ⊢; omega)
      · rw [dictContains_single]
        rw [beq_eq_false_iff_ne]
        intro hEq
        have := hinj i j (Nat.le_refl i) (by simp only [List.length_cons]; omega) (by omega)
          (by simp only [List.length_cons] at hj2 ⊢; omega) hEq
        omega
    · intro j k hj1 hj2 hk1 hk2 hEq
      exact hinj j k (by omega) (by simp only [List.length_cons] at hj2 ⊢; omega) (by omega)
        (by simp only [List.length_cons] at hk2 ⊢; omega) hEq

theorem fillFold_eq (hs : List String) :
    ∀ (d : List (String × String)), hs.Nodup →
      hs.foldl (fun d h => if dictContains d h then d else dictInsert d h "") d
        = d ++ (hs.filter (fun h => !dictContains d h)).map (fun h => (h, "")) := by
  induction hs with
  | nil => intro d _; simp
  | cons h hs' ih =>
    intro d hnd
    have hnd' : hs'.Nodup := (List.nodup_cons.mp hnd).2
    have hmem : h ∉ hs' := (List.nodup_cons.mp hnd).1
    by_cases hcont : dictContains d h = true
    · rw [List.foldl_cons, if_pos hcont, ih d hnd']
      have : (List.filter (fun x => !dictContains d x) (h :: hs'))
          = List.filter (fun x => !dictContains d x) hs' := by
        rw [List.filter_cons]
        simp [hcont]
      rw [this]
    · have hcf : dictContains d h = false := by
        cases hx : dictContains d h
        · rfl
        · exact absurd hx hcont
      rw [List.foldl_cons, if_neg hcont, dictInsert_fresh d h "" hcf, ih _ hnd']
      have hfc : List.filter (fun x => !dictContains (d ++ [(h, "")]) x) hs'
          = List.filter (fun x => !dictContains d x) hs' := by
        apply List.filter_congr
        intro x hx
        rw [dictContains_append, dictContains_single]
        have : (h == x) = false := by
          rw [beq_eq_false_iff_ne]
          intro hEq
          exact hmem (hEq ▸ hx)
        rw [this, Bool.or_false]
      rw [hfc]
      have : List.filter (fun x => !dictContains d x) (h :: hs')
          = h :: List.filter (fun x => !dictContains d x) hs' := by
        rw [List.filter_cons]
        simp [hcf]
      rw [this, List.append_assoc]
      rfl

theorem dictLookup_cons_of_pos (p : String × String) (d : List (String × String)) (k : String)
    (h : (p.1 == k) = true) : dictLookup (p :: d) k = some p.2 := by
  simp [dictLookup, List.find?, h]

theorem dictLookup_cons_of_neg (p : String × String) (d : List (String × String)) (k : String)
    (h : (p.1 == k) = false) : dictLookup (p :: d) k = dictLookup d k := by
  simp [dictLookup, List.find?, h]

theorem dictLookup_eq_none (d : List (String × String)) (k : String)
    (h : dictContains d k = false) : dictLookup d k = none := by
  unfold dictLookup
  have hf : d.find? (fun p => p.1 == k) = none := by
    rw [List.find?_eq_none]
    intro p hp
    simp only [dictContains, List.any_eq_false] at h
    simpa using h p hp
  rw [hf]
  rfl

theorem rowPairs_lookup (headers : List String) :
    ∀ (cs : List String) (i n : Nat) (hn : n < cs.length),
      (∀ j k, i ≤ j → j < i + cs.length → i ≤ k → k < i + cs.length →
        keyAt headers j = keyAt headers k → j = k) →
      dictLookup (rowPairs headers cs i) (keyAt headers (i + n))
        = some (cleanText (cs.get ⟨n, hn⟩)) := by
  intro cs
  induction cs with
  | nil => intro i n hn _; exact absurd hn (by simp)
  | cons c cs' ih =>
    intro i n hn hinj
    cases n with
    | zero =>
      rw [Nat.add_zero, rowPairs]
      rw [dictLookup_cons_of_pos _ _ _ (by rw [beq_iff_eq])]
      rfl
    | succ n' =>
      rw [rowPairs]
      rw [dictLookup_cons_of_neg]
      · have harith : i + (n' + 1) = (i + 1) + n' := by omega
        rw [harith]
        have hn' : n' < cs'.length := by simp only [List.length_cons] at hn; omega
        rw [ih (i + 1) n' hn' ?_]
        · rfl
        · intro j k hj1 hj2 hk1 hk2 hEq
          exact hinj j k (by omega) (by simp only [List.length_cons]; omega) (by omega)
            (by simp only [List.length_cons]; omega) hEq
      · rw [beq_eq_false_iff_ne]
        intro hEq
        have := hinj i (i + (n' + 1)) (Nat.le_refl i) (by simp only [List.length_cons]; omega)
          (by omega) (by simp only [List.length_cons] at hn ⊢; omega) hEq
        omega

theorem dictLookup_append (d e : List (String × String)) (k : String) :
    dictLookup (d ++ e) k = (dictLookup d k).or (dictLookup e k) := by
  unfold dictLookup
  rw [List.find?_append]
  cases List.find? (fun p => p.1 == k) d <;> simp

theorem rowPairs_contains (headers : List String) :
    ∀ (cs : List String) (i0 : Nat) (k : String),
      dictContains (rowPairs headers cs i0) k = true →
      ∃ j, i0 ≤ j ∧ j < i0 + cs.length ∧ keyAt headers j = k := by
  intro cs
  induction cs with
  | nil => intro i0 k h; exact absurd h (by simp [rowPairs, dictContains])
  | cons c cs' ih =>
    intro i0 k h
    rw [rowPairs] at h
    simp only [dictContains, List.any_cons] at h
    rcases Bool.or_eq_true_iff.mp h with h1 | h1
    · exact ⟨i0, Nat.le_refl _, by simp only [List.length_cons]; omega, beq_iff_eq.mp h1⟩
    · obtain ⟨j, hj1, hj2, hj3⟩ := ih (i0 + 1) k (by simpa [dictContains] using h1)
      exact ⟨j, by omega, by simp only [List.length_cons] at hj2 ⊢; omega, hj3⟩

theorem dictLookup_const_map (hs : List String) (x : String) (hx : x ∈ hs) :
    dictLookup (hs.map (fun h => (h, ""))) x = some "" := by
  induction hs with
  | nil => cases hx
  | cons a as ih =>
    rw [List.map_cons]
    by_cases hax : (a == x) = true
    · rw [dictLookup_cons_of_pos _ _ _ hax]
    · have hax' : (a == x) = false := by
        cases h' : (a == x)
        · rfl
        · exact absurd h' hax
      rw [dictLookup_cons_of_neg _ _ _ hax']
      rcases List.mem_cons.mp hx with hEq | hMem
      · subst hEq
        simp at hax'
      · exact ih hMem

theorem keyAt_lt (headers : List String) (i : Nat) (h : i < headers.length) :
    keyAt headers i = headers.get ⟨i, h⟩ := by
  unfold keyAt
  rw [List.get?_eq_get h]

/-- C6: the record a data row produces maps cells positionally — position `n`
is stored under `keyAt headers n`, i.e. under the n-th header when one exists
and under the synthetic `Extra_Column_n` key beyond the header count — every
header without a corresponding cell maps to the empty string, and every header
is a key of the record.  (The hypothesis makes the header names together with
the synthetic overflow keys pairwise distinct, which the claim's reading of the
record as a mapping presupposes.)  In particular headers `[h1, h2, h3]` with
row `[v1, v2]` yield exactly the record `h1 ↦ v1, h2 ↦ v2, h3 ↦ ""`. -/
theorem c6_ragged_row_records (headers cells : List String)
    (hinj : ∀ i j : Fin (max cells.length headers.length),
      keyAt headers i.val = keyAt headers j.val → i.val = j.val) :
    (∀ n : Fin cells.length,
      dictLookup (extractRowRecord headers cells) (keyAt headers n.val)
        = some (cleanText (cells.get n)))
    ∧ (∀ i : Fin headers.length, cells.length ≤ i.val →
      dictLookup (extractRowRecord headers cells) (headers.get i) = some "")
    ∧ (∀ h ∈ headers, (dictLookup (extractRowRecord headers cells) h).isSome = true)
    ∧ extractRowRecord ["h1", "h2", "h3"] ["v1", "v2"]
        = [("h1", "v1"), ("h2", "v2"), ("h3", "")] := by
  have hinjN : ∀ j k : Nat, j < max cells.length headers.length →
      k < max cells.length headers.length → keyAt headers j = keyAt headers k → j = k :=
    fun j k hj hk hEq => hinj ⟨j, hj⟩ ⟨k, hk⟩ hEq
  have hbuild : buildRowData headers cells 0 [] = rowPairs headers cells 0 := by
    have h := buildRowData_eq headers cells 0 [] (fun j _ _ => rfl)
      (fun j k hj1 hj2 hk1 hk2 hEq => hinjN j k
        (lt_of_lt_of_le (by simpa using hj2) (Nat.le_max_left _ _))
        (lt_of_lt_of_le (by simpa using hk2) (Nat.le_max_left _ _)) hEq)
    simpa using h
  have hnodup : headers.Nodup := by
    rw [List.nodup_iff_injective_get]
    intro a b hEq
    have ha := keyAt_lt headers a.val a.isLt
    have hb := keyAt_lt headers b.val b.isLt
    have := hinjN a.val b.val (lt_of_lt_of_le a.isLt (Nat.le_max_right _ _))
      (lt_of_lt_of_le b.isLt (Nat.le_max_right _ _)) (by rw [ha, hb]; simpa using hEq)
    exact Fin.ext this
  have hrecord : extractRowRecord headers cells
      = rowPairs headers cells 0
        ++ (headers.filter
            (fun h => !dictContains (rowPairs headers cells 0) h)).map (fun h => (h, "")) := by
    unfold extractRowRecord fillMissing
    rw [hbuild]
    exact fillFold_eq headers _ hnodup
  have hc1 : ∀ n : Fin cells.length,
      dictLookup (extractRowRecord headers cells) (keyAt headers n.val)
        = some (cleanText (cells.get n)) := by
    intro n
    have hl := rowPairs_lookup headers cells 0 n.val n.isLt
      (fun j k hj1 hj2 hk1 hk2 hEq => hinjN j k
        (lt_of_lt_of_le (by simpa using hj2) (Nat.le_max_left _ _))
        (lt_of_lt_of_le (by simpa using hk2) (Nat.le_max_left _ _)) hEq)
    rw [Nat.zero_add] at hl
    rw [hrecord, dictLookup_append, hl]
    rfl
  have hc2 : ∀ i : Fin headers.length, cells.length ≤ i.val →
      dictLookup (extractRowRecord headers cells) (headers.get i) = some "" := by
    intro i hge
    have habs : dictContains (rowPairs headers cells 0) (headers.get i) = false := by
      cases hcc : dictContains (rowPairs headers cells 0) (headers.get i)
      · rfl
      · exfalso
        obtain ⟨j, _, hj2, hj3⟩ := rowPairs_contains headers cells 0 (headers.get i) hcc
        rw [Nat.zero_add] at hj2
        have hkey : keyAt headers i.val = headers.get i := by
          rw [keyAt_lt headers i.val i.isLt]
        have hij := hinjN j i.val (lt_of_lt_of_le hj2 (Nat.le_max_left _ _))
          (lt_of_lt_of_le i.isLt (Nat.le_max_right _ _)) (by rw [hj3, hkey])
        omega
    rw [hrecord, dictLookup_append, dictLookup_eq_none _ _ habs, Option.none_or]
    apply dictLookup_const_map
    rw [List.mem_filter]
    refine ⟨List.get_mem headers i.val i.isLt, ?_⟩
    rw [habs]
    rfl
  refine ⟨hc1, hc2, ?_, rfl⟩
  intro h hmem
  obtain ⟨i, hi⟩ := List.mem_iff_get.mp hmem
  by_cases hlt : i.val < cells.length
  · have := hc1 ⟨i.val, hlt⟩
    rw [keyAt_lt headers i.val i.isLt] at this
    rw [← hi, this]
    rfl
  · have := hc2 i (by omega)
    rw [← hi, this]
    rfl

theorem c6_ragged_row_records_witness :
    extractRowRecord ["h1", "h2", "h3"] ["v1", "v2"]
      = [("h1", "v1"), ("h2", "v2"), ("h3", "")] :=
  (c6_ragged_row_records ["h1", "h2", "h3"] ["v1", "v2"] (by decide)).2.2.2

/-! ## Claim C7 -/

theorem foldl_replace_eq_map (cs : List Char) (l : List Char) :
    cs.foldl sanitizeReplaceStep l
      = l.map (fun x => cs.foldl (fun y c => if y == c then '_' else y) x) := by
  induction cs generalizing l with
  | nil => simp
  | cons c cs' ih =>
    rw [List.foldl_cons, ih]
    unfold sanitizeReplaceStep
    rw [List.map_map]
    apply List.map_congr_left
    intro x _
    rfl

theorem foldl_replace_pointwise (cs : List Char) (hcs : '_' ∉ cs) (x : Char) :
    cs.foldl (fun y c => if y == c then '_' else y) x
      = if cs.contains x then '_' else x := by
  induction cs generalizing x with
  | nil => simp
  | cons c cs' ih =>
    have hcs' : '_' ∉ cs' := fun h => hcs (List.mem_cons_of_mem c h)
    rw [List.foldl_cons]
    by_cases hxc : (x == c) = true
    · have hx : x = c := beq_iff_eq.mp hxc
      rw [if_pos hxc, ih hcs' '_']
      have hcont : (c :: cs').contains x = true := by
        rw [List.contains_cons]
        simp [hxc]
      rw [if_pos hcont, ite_self]
    · have hxc' : (x == c) = false := by
        cases hb : (x == c)
        · rfl
        · exact absurd hb hxc
      rw [if_neg (by simp [hxc']), ih hcs' x]
      have hcont : (c :: cs').contains x = cs'.contains x := by
        rw [List.contains_cons, hxc', Bool.false_or]
      rw [hcont]

theorem sanitizeFilename_eq_spec (s : String) : sanitizeFilename s = specSanitize s := by
  unfold sanitizeFilename specSanitize
  rw [foldl_replace_eq_map]
  have hpt : ∀ x ∈ s.data, (fun x => invalidFilenameChars.foldl
        (fun y c => if y == c then '_' else y) x) x
      = (fun c => if invalidFilenameChars.contains c then '_' else c) x := by
    intro x _
    exact foldl_replace_pointwise invalidFilenameChars (by decide) x
  rw [List.map_congr_left hpt]

theorem detect_cases (r : HttpResponse) :
    detectContentType r = "html" ∨ detectContentType r = "excel"
      ∨ detectContentType r = "unknown" := by
  unfold detectContentType
  dsimp only
  split_ifs <;> simp

/-- C7 amended: the resolved filename equals the specification-side resolver —
content-disposition base (URL-decoded, quote-stripped, sanitized, truncated by
cutting the pre-extension name to 195 characters when over 200, stripped of
its final extension) with the fallback `election_report_{city}_{town}_{ts}`
when absent, unparseable or empty, suffixed `.xls` exactly for content
classified spreadsheet and `.html` for html or unknown. -/
theorem c7_filename_resolution (r : HttpResponse) (cityCode townCode : String)
    (timestamp : Nat) :
    getFilenameFromResponse r cityCode townCode timestamp
      = specResolveFilename r cityCode townCode timestamp := by
  have hspec : specClassifyAmended r = kindOfString (detectContentType r) :=
    (detect_eq_specAmended r).symm
  unfold getFilenameFromResponse specResolveFilename
  rcases detect_cases r with h | h | h <;>
    simp [h, hspec, kindOfString, sanitizeFilename_eq_spec] <;>
    cases r.contentDisposition with
    | none => rfl
    | some cd =>
      rcases hps : pySplitSecond filenameSep cd.data with _ | raw <;>
        simp only [hps]

/-- The 446-character filename of the C7 counterexample: 195 dots, an `x`, a
dot, then 250 `b`s — `os.path.splitext` treats everything from the last dot
preceded by a non-dot as the extension, so truncation keeps all 250 `b`s. -/
def c7LongName : List Char :=
  List.replicate 195 '.' ++ ('x' :: '.' :: List.replicate 250 'b')

def c7Response : HttpResponse :=
  ⟨some "text/html", some (String.mk ("attachment; filename=".data ++ c7LongName)), []⟩

/-- C7 counterexample: the content-disposition header is present and parseable,
yet the resolved base is 446 characters long — the "truncated to at most 200
characters" part of the claim fails, because `name[:195] + ext` does not bound
the extension and the final extension strip can leave the whole name intact
when the pre-extension part is all dots. -/
theorem c7_truncation_counterexample :
    c7Response.contentDisposition.isSome = true
    ∧ (getFilenameFromResponse c7Response "11" "1101" 77).1.length = 446
    ∧ 200 < (getFilenameFromResponse c7Response "11" "1101" 77).1.length := by
  have h : (getFilenameFromResponse c7Response "11" "1101" 77).1.length = 446 := rfl
  refine ⟨rfl, h, ?_⟩
  rw [h]
  norm_num

/-! ## Claim C9: lemmas about `_clean_text` -/

theorem wsCanonical_mem {l : List Char} {c : Char} (h : wsCanonical l = true) (hc : c ∈ l) :
    (!isPySpace c || c == ' ') = true := by
  induction l with
  | nil => cases hc
  | cons a as ih =>
    rw [wsCanonical, Bool.and_eq_true] at h
    rcases List.mem_cons.mp hc with hEq | hMem
    · subst hEq; exact h.1
    · exact ih h.2 hMem

theorem collapseWSAux_canonical (fl : Bool) (l : List Char) :
    wsCanonical (collapseWSAux fl l) = true := by
  induction l generalizing fl with
  | nil => rfl
  | cons c cs ih =>
    by_cases hc : isPySpace c = true
    · cases fl with
      | true => simpa [collapseWSAux, hc] using ih true
      | false =>
        have hA : collapseWSAux false (c :: cs) = ' ' :: collapseWSAux true cs := by
          simp [collapseWSAux, hc]
        rw [hA, wsCanonical, Bool.and_eq_true]
        exact ⟨by decide, ih true⟩
    · have hc' : isPySpace c = false := by simpa using hc
      have hA : collapseWSAux fl (c :: cs) = c :: collapseWSAux false cs := by
        simp [collapseWSAux, hc']
      rw [hA, wsCanonical, Bool.and_eq_true]
      exact ⟨by simp [hc'], ih false⟩

theorem collapseWSAux_head_true (l : List Char) :
    headNotWS (collapseWSAux true l) = true := by
  induction l with
  | nil => rfl
  | cons c cs ih =>
    by_cases hc : isPySpace c = true
    · simpa [collapseWSAux, hc] using ih
    · have hc' : isPySpace c = false := by simpa using hc
      simp [collapseWSAux, hc', headNotWS]

theorem collapseWSAux_head_pres (fl : Bool) (l : List Char) (h : headNotWS l = true) :
    headNotWS (collapseWSAux fl l) = true := by
  cases l with
  | nil => cases fl <;> rfl
  | cons c cs =>
    have hc : isPySpace c = false := by
      simpa [headNotWS, Bool.not_eq_true] using h
    simp [collapseWSAux, hc, headNotWS]

theorem collapseWSAux_noConsec (fl : Bool) (l : List Char) :
    noConsecWS (collapseWSAux fl l) = true := by
  induction l generalizing fl with
  | nil => rfl
  | cons c cs ih =>
    by_cases hc : isPySpace c = true
    · cases fl with
      | true => simpa [collapseWSAux, hc] using ih true
      | false =>
        have hA : collapseWSAux false (c :: cs) = ' ' :: collapseWSAux true cs := by
          simp [collapseWSAux, hc]
        rw [hA]
        have hh := collapseWSAux_head_true cs
        cases hx : (collapseWSAux true cs).head? with
        | none => simp [noConsecWS, hx, ih true]
        | some b =>
          have hb : isPySpace b = false := by
            unfold headNotWS at hh
            rw [hx] at hh
            simpa using hh
          simp [noConsecWS, hx, hb, ih true]
    · have hc' : isPySpace c = false := by simpa using hc
      have hA : collapseWSAux fl (c :: cs) = c :: collapseWSAux false cs := by
        simp [collapseWSAux, hc']
      rw [hA]
      cases hx : (collapseWSAux false cs).head? with
      | none => simp [noConsecWS, hx, ih false]
      | some b => simp [noConsecWS, hx, hc', ih false]

theorem collapseWSAux_last (fl : Bool) (l : List Char) (h : lastNotWS l = true) :
    lastNotWS (collapseWSAux fl l) = true ∧ (l ≠ [] → collapseWSAux fl l ≠ []) := by
  induction l generalizing fl with
  | nil => exact ⟨by cases fl <;> rfl, by simp⟩
  | cons c cs ih =>
    cases cs with
    | nil =>
      have hc : isPySpace c = false := by
        simpa [lastNotWS, Bool.not_eq_true] using h
      constructor
      · simp [collapseWSAux, hc, lastNotWS]
      · simp [collapseWSAux, hc]
    | cons c2 cs2 =>
      have hcs : lastNotWS (c2 :: cs2) = true := by
        unfold lastNotWS at h ⊢
        rw [List.getLast?_cons_cons] at h
        exact h
      have ihT := ih true hcs
      have ihF := ih false hcs
      by_cases hc : isPySpace c = true
      · cases fl with
        | true =>
          have hA : collapseWSAux true (c :: c2 :: cs2) = collapseWSAux true (c2 :: cs2) := by
            simp [collapseWSAux, hc]
          rw [hA]
          exact ⟨ihT.1, fun _ => ihT.2 (by simp)⟩
        | false =>
          have hA : collapseWSAux false (c :: c2 :: cs2)
              = ' ' :: collapseWSAux true (c2 :: cs2) := by
            simp [collapseWSAux, hc]
          rw [hA]
          have hne := ihT.2 (by simp)
          refine ⟨?_, fun _ => by simp⟩
          rcases hx : collapseWSAux true (c2 :: cs2) with _ | ⟨y, ys⟩
          · exact absurd hx hne
          · unfold lastNotWS
            rw [List.getLast?_cons_cons]
            have h1 := ihT.1
            unfold lastNotWS at h1
            rw [hx] at h1
            exact h1
      · have hc' : isPySpace c = false := by simpa using hc
        have hA : collapseWSAux fl (c :: c2 :: cs2) = c :: collapseWSAux false (c2 :: cs2) := by
          simp [collapseWSAux, hc']
        rw [hA]
        have hne := ihF.2 (by simp)
        refine ⟨?_, fun _ => by simp⟩
        rcases hx : collapseWSAux false (c2 :: cs2) with _ | ⟨y, ys⟩
        · exact absurd hx hne
        · unfold lastNotWS
          rw [List.getLast?_cons_cons]
          have h1 := ihF.1
          unfold lastNotWS at h1
          rw [hx] at h1
          exact h1

theorem collapseWSAux_fix (l : List Char) (fl : Bool)
    (hcan : wsCanonical l = true) (hnc : noConsecWS l = true)
    (hfl : fl = true → headNotWS l = true) :
    collapseWSAux fl l = l := by
  induction l generalizing fl with
  | nil => rfl
  | cons c cs ih =>
    rw [wsCanonical, Bool.and_eq_true] at hcan
    rw [noConsecWS, Bool.and_eq_true] at hnc
    by_cases hc : isPySpace c = true
    · have hsp : c = ' ' := by
        rcases Bool.or_eq_true_iff.mp hcan.1 with h1 | h1
        · rw [hc] at h1; exact absurd h1 (by simp)
        · exact beq_iff_eq.mp h1
      cases fl with
      | true =>
        exfalso
        have hh := hfl rfl
        simp [headNotWS, hc] at hh
      | false =>
        have hhead : headNotWS cs = true := by
          cases cs with
          | nil => rfl
          | cons c2 cs2 =>
            have h2 := hnc.1
            simp only [List.head?_cons] at h2
            rw [hc] at h2
            simp at h2
            simp [headNotWS, h2]
        have hA : collapseWSAux false (c :: cs) = ' ' :: collapseWSAux true cs := by
          simp [collapseWSAux, hc]
        rw [hA, hsp, ih true hcan.2 hnc.2 (fun _ => hhead)]
    · have hc' : isPySpace c = false := by simpa using hc
      have hA : collapseWSAux fl (c :: cs) = c :: collapseWSAux false cs := by
        simp [collapseWSAux, hc']
      rw [hA, ih false hcan.2 hnc.2 (by simp)]

theorem headNotWS_dropWhile (l : List Char) :
    headNotWS (l.dropWhile isPySpace) = true := by
  induction l with
  | nil => rfl
  | cons c cs ih =>
    by_cases hc : isPySpace c = true
    · simpa [List.dropWhile_cons_of_pos hc] using ih
    · rw [List.dropWhile_cons_of_neg hc]
      unfold headNotWS
      rw [List.head?_cons]
      simpa using hc

theorem pyStrip_noEdge (l : List Char) : noEdgeWS (pyStrip l) = true := by
  have hhead : headNotWS (pyStrip l) = true := by
    unfold pyStrip headNotWS
    rw [List.head?_reverse]
    rcases hx : List.dropWhile isPySpace (List.dropWhile isPySpace l).reverse with _ | ⟨y, ys⟩
    · rfl
    · obtain ⟨t, ht⟩ :=
        List.dropWhile_suffix (l := (List.dropWhile isPySpace l).reverse) isPySpace
      rw [hx] at ht
      have hgl : (y :: ys).getLast? = ((List.dropWhile isPySpace l).reverse).getLast? := by
        rw [← ht, List.getLast?_append_of_ne_nil _ (by simp)]
      rw [hgl, List.getLast?_reverse]
      have hh := headNotWS_dropWhile l
      unfold headNotWS at hh
      exact hh
  have hlast : lastNotWS (pyStrip l) = true := by
    unfold pyStrip lastNotWS
    rw [List.getLast?_reverse]
    have hh := headNotWS_dropWhile ((List.dropWhile isPySpace l).reverse)
    unfold headNotWS at hh
    exact hh
  unfold noEdgeWS
  rw [Bool.and_eq_true]
  exact ⟨hhead, hlast⟩

theorem dropWhile_id_of_headNot (l : List Char) (h : headNotWS l = true) :
    l.dropWhile isPySpace = l := by
  cases l with
  | nil => rfl
  | cons c cs =>
    have hc : ¬ isPySpace c = true := by
      simpa [headNotWS, Bool.not_eq_true] using h
    rw [List.dropWhile_cons_of_neg hc]

theorem pyStrip_fix (l : List Char) (h : noEdgeWS l = true) : pyStrip l = l := by
  unfold noEdgeWS at h
  rw [Bool.and_eq_true] at h
  unfold pyStrip
  rw [dropWhile_id_of_headNot l h.1]
  have hrev : headNotWS l.reverse = true := by
    unfold headNotWS
    rw [List.head?_reverse]
    have h2 := h.2
    unfold lastNotWS at h2
    exact h2
  rw [dropWhile_id_of_headNot l.reverse hrev, List.reverse_reverse]

theorem cleanText_eq (s : String) :
    cleanText s = String.mk (collapseWSAux false (pyStrip s.data)) := by
  unfold cleanText
  by_cases hs : s = ""
  · subst hs; rfl
  · rw [if_neg hs]
    have hcan := collapseWSAux_canonical false (pyStrip s.data)
    have hNL : (collapseWSAux false (pyStrip s.data)).map replaceNL
        = collapseWSAux false (pyStrip s.data) := by
      have hid : ∀ a ∈ collapseWSAux false (pyStrip s.data), replaceNL a = id a := by
        intro a ha
        have h1 := wsCanonical_mem hcan ha
        unfold replaceNL
        rcases Bool.or_eq_true_iff.mp h1 with h | h
        · rw [if_neg]
          · rfl
          · intro hEq; subst hEq; revert h; decide
        · simp only [beq_iff_eq] at h; subst h; rfl
      rw [List.map_congr_left hid, List.map_id]
    have hCR : (collapseWSAux false (pyStrip s.data)).map replaceCR
        = collapseWSAux false (pyStrip s.data) := by
      have hid : ∀ a ∈ collapseWSAux false (pyStrip s.data), replaceCR a = id a := by
        intro a ha
        have h1 := wsCanonical_mem hcan ha
        unfold replaceCR
        rcases Bool.or_eq_true_iff.mp h1 with h | h
        · rw [if_neg]
          · rfl
          · intro hEq; subst hEq; revert h; decide
        · simp only [beq_iff_eq] at h; subst h; rfl
      rw [List.map_congr_left hid, List.map_id]
    rw [hNL, hCR]

theorem wsCanonical_no_newline (l : List Char) (h : wsCanonical l = true) :
    (l.all (fun c => !(c == '\n') && !(c == '\r'))) = true := by
  rw [List.all_eq_true]
  intro c hc
  have h1 := wsCanonical_mem h hc
  simp only [Bool.and_eq_true]
  rcases Bool.or_eq_true_iff.mp h1 with h2 | h2
  · have hcf : isPySpace c = false := by simpa using h2
    constructor
    · by_contra hx
      have hEq : c = '\n' := by simpa using hx
      subst hEq; revert hcf; decide
    · by_contra hx
      have hEq : c = '\r' := by simpa using hx
      subst hEq; revert hcf; decide
  · have hEq : c = ' ' := by simpa using h2
    subst hEq
    exact ⟨by decide, by decide⟩

/-- C9: `_clean_text` is idempotent and its output is in normal form — every
whitespace character is a plain space (so no newlines or carriage returns
survive), no two consecutive whitespace characters occur, the result has no
leading or trailing whitespace, and empty input yields the empty string. -/
theorem c9_clean_text_idempotent (s : String) :
    cleanText (cleanText s) = cleanText s
    ∧ wsCanonical (cleanText s).data = true
    ∧ noConsecWS (cleanText s).data = true
    ∧ noEdgeWS (cleanText s).data = true
    ∧ ((cleanText s).data.all (fun c => !(c == '\n') && !(c == '\r'))) = true
    ∧ cleanText "" = "" := by
  have hdata : (cleanText s).data = collapseWSAux false (pyStrip s.data) := by
    rw [cleanText_eq]
  have hcan : wsCanonical (cleanText s).data = true := by
    rw [hdata]; exact collapseWSAux_canonical false (pyStrip s.data)
  have hnc : noConsecWS (cleanText s).data = true := by
    rw [hdata]; exact collapseWSAux_noConsec false (pyStrip s.data)
  have hstrip : headNotWS (pyStrip s.data) = true ∧ lastNotWS (pyStrip s.data) = true := by
    have h := pyStrip_noEdge s.data
    unfold noEdgeWS at h
    rw [Bool.and_eq_true] at h
    exact h
  have hedge : noEdgeWS (cleanText s).data = true := by
    unfold noEdgeWS
    rw [Bool.and_eq_true, hdata]
    exact ⟨collapseWSAux_head_pres false _ hstrip.1, (collapseWSAux_last false _ hstrip.2).1⟩
  refine ⟨?_, hcan, hnc, hedge, wsCanonical_no_newline _ hcan, rfl⟩
  rw [cleanText_eq (cleanText s), pyStrip_fix _ hedge,
    collapseWSAux_fix _ false hcan hnc (by simp)]

end Crawler
